import Mathlib

/-! Employee handlers of `main.go` (go-fiber-mongo-hrms)

A shallow embedding of the four HTTP handlers registered in `main`
(`GET /employee`, `POST /employee`, `PUT /employee/:id`, `DELETE /employee/:id`).

The handlers are translated statement by statement from `src/main.go`.  The
collaborators they call (the fiber context, the body parser, the JSON encoder,
the MongoDB driver) are not part of the repository; each is given a small
executable model whose doc comment says which library function it stands for.
The collection is modelled with the documents this service writes: an `_id`
and the three fields of an Employee, the two numbers being `float32` values.

* The response under construction is a `Ctx` (status code and body).  A
  handler that returns the error of `c.JSON` is answered by fiber's default
  error handler.
* The collection `employees` is a `List Doc` in store-native order.
* What the environment decides during one request is passed as an argument: whether
  a driver call fails (`Option String`, the description of the failure) and
  which ObjectID the driver generates for an insert.
* Every handler returns an `Outcome`: the response, the collection afterwards
  and the driver calls it issued, in order.
-/

namespace Hrms

/-! ## Data model -/

/-- Modelled from the spec: the numeric type of `salary` and `age`, Go's
`float32`, carried as its IEEE-754 bit pattern (sign, 8 exponent bits, 23
fraction bits).  The handlers never compute with salaries or ages: they only
move them between the request, the store and the response, so only the zero
value, equality and the class of the value (finite, infinite, NaN) matter. -/
structure Float32 where
  bits : Nat
deriving DecidableEq, Repr

/-- The exponent field of a `float32`. -/
def Float32.exponent (f : Float32) : Nat := f.bits / 2 ^ 23 % 256

/-- The fraction field of a `float32`. -/
def Float32.fraction (f : Float32) : Nat := f.bits % 2 ^ 23

/-- The sign bit of a `float32`. -/
def Float32.sign (f : Float32) : Nat := f.bits / 2 ^ 31 % 2

/-- A `float32` that is neither an infinity nor a NaN. -/
def Float32.isFinite (f : Float32) : Bool := f.exponent != 255

/-- A `float32` that is a NaN. -/
def Float32.isNaN (f : Float32) : Bool := f.exponent == 255 && f.fraction != 0

/-- Modelled from the spec: `strconv.FormatFloat(f, 'g', -1, 32)` of Go on a
value that is not finite, which is all the JSON encoder's error needs. -/
def Float32.formatNonFinite (f : Float32) : String :=
  if f.isNaN then "NaN" else if f.sign = 1 then "-Inf" else "+Inf"

/-- The struct `Employee` of `main.go` (lines 29-34). -/
structure Employee where
  ID : String
  Name : String
  Salary : Float32
  Age : Float32
deriving DecidableEq, Repr

/-- The value of `new(Employee)` and of `&Employee{}`: every field zero. -/
def Employee.zero : Employee := ⟨"", "", ⟨0⟩, ⟨0⟩⟩

/-- An Employee whose salary and age are finite numbers, as every Employee
deserialised from a JSON body is: JSON has no literal for an infinity or a NaN. -/
def Employee.Finite (e : Employee) : Prop :=
  e.Salary.isFinite = true ∧ e.Age.isFinite = true

instance (e : Employee) : Decidable e.Finite := by
  unfold Employee.Finite; infer_instance

/-- Modelled from the spec: the store's native identifier, `primitive.ObjectID`
of the MongoDB driver, a `[12]byte`. -/
structure ObjectID where
  bytes : List (Fin 256)
  size : bytes.length = 12
deriving DecidableEq, Repr

/-- Modelled from the spec: `primitive.NilObjectID`, the zero value of an ObjectID. -/
def NilObjectID : ObjectID := ⟨List.replicate 12 0, rfl⟩

/-- Modelled from the spec: the identifier encoding, here the `hextable` of
Go's `encoding/hex`. -/
def hextable : List Char :=
  ['0', '1', '2', '3', '4', '5', '6', '7', '8', '9', 'a', 'b', 'c', 'd', 'e', 'f']

/-- Modelled from the spec: the identifier encoding, here the two hex digits
of one byte as `hex.Encode` of Go's `encoding/hex` writes them:
`hextable[v>>4]`, `hextable[v&0x0f]`. -/
def encodeByte (v : Fin 256) : List Char :=
  [hextable.getD (v.val / 16) '0', hextable.getD (v.val % 16) '0']

/-- Modelled from the spec: the identifier encoding, here the loop of
`hex.Encode` over a byte slice. -/
def hexEncode : List (Fin 256) → List Char
  | [] => []
  | v :: vs => encodeByte v ++ hexEncode vs

/-- Modelled from the spec: `ObjectID.Hex`, the 24-digit lower-case rendering
of an ObjectID, which is how the driver decodes `_id` into the string field
`Employee.ID`. -/
def ObjectID.Hex (o : ObjectID) : String := String.mk (hexEncode o.bytes)

/-- The bytes of a Go string: the UTF-8 encoding of its characters. -/
def goBytes : List Char → List Nat
  | [] => []
  | c :: cs => (String.utf8EncodeChar c).map UInt8.toNat ++ goBytes cs

/-- Modelled from the spec: the identifier encoding, here `fromHexChar` of Go's
`encoding/hex`: the value of the byte of one hex digit (`0`-`9`, `a`-`f`,
`A`-`F`), or nothing. -/
def fromHexChar (c : Nat) : Option Nat :=
  if 48 ≤ c ∧ c ≤ 57 then some (c - 48)
  else if 97 ≤ c ∧ c ≤ 102 then some (c - 97 + 10)
  else if 65 ≤ c ∧ c ≤ 70 then some (c - 65 + 10)
  else none

/-- Modelled from the spec: the errors `primitive.ObjectIDFromHex` and
`hex.Decode` can return: `primitive.ErrInvalidHex`, `hex.InvalidByteError` of
a byte, `hex.ErrLength`. -/
inductive HexError where
  | invalidHex
  | invalidByte (b : Nat)
  | length
deriving DecidableEq, Repr

/-- The upper-case digits Go's `fmt` writes a code point with. -/
def upperDigits : List Char :=
  ['0', '1', '2', '3', '4', '5', '6', '7', '8', '9', 'A', 'B', 'C', 'D', 'E', 'F']

/-- Modelled from the spec: `strconv.IsPrint` of Go on a code point below 256. -/
def isPrint (b : Nat) : Bool :=
  (0x20 ≤ b && b ≤ 0x7E) || (0xA1 ≤ b && b ≤ 0xFF && b != 0xAD)

/-- Modelled from the spec: the verb `%#U` of Go's `fmt` on the code point of
a byte: `U+00XX`, followed by the character between two apostrophes (code
point 39) when it is printable. -/
def sharpU (b : Nat) : String :=
  String.mk (['U', '+', '0', '0', upperDigits.getD (b / 16 % 16) '0',
      upperDigits.getD (b % 16) '0'] ++
    (if isPrint b then [' ', Char.ofNat 39, Char.ofNat b, Char.ofNat 39] else []))

/-- Modelled from the spec: the text of `err.Error()` for the errors of
`ObjectIDFromHex`. -/
def HexError.Error : HexError → String
  | .invalidHex => "the provided hex string is not a valid ObjectID"
  | .invalidByte b => "encoding/hex: invalid byte: " ++ sharpU b
  | .length => "encoding/hex: odd length hex string"

/-- Modelled from the spec: the identifier encoding, here the loop of
`hex.Decode` over the bytes of the source: pairs of digits to bytes, stopping
at the first byte that is no hex digit. -/
def hexDecode : List Nat → Except HexError (List (Fin 256))
  | [] => .ok []
  | [p] =>
    match fromHexChar p with
    | none => .error (.invalidByte p)
    | some _ => .error .length
  | p :: q :: rest =>
    match fromHexChar p with
    | none => .error (.invalidByte p)
    | some a =>
      match fromHexChar q with
      | none => .error (.invalidByte q)
      | some b =>
        match hexDecode rest with
        | .error e => .error e
        | .ok bs => .ok (Fin.ofNat (a * 16 + b) :: bs)

/-- Modelled from the spec: `primitive.ObjectIDFromHex`.  As in Go it returns a
pair: the ObjectID and the error; on an error the ObjectID is `NilObjectID`.
The string must be 24 bytes long and consist of hex digits. -/
def ObjectIDFromHex (s : String) : ObjectID × Option HexError :=
  if s.utf8ByteSize ≠ 24 then (NilObjectID, some .invalidHex)
  else
    match hexDecode (goBytes s.data) with
    | .error e => (NilObjectID, some e)
    | .ok bs =>
      if h : bs.length = 12 then (⟨bs, h⟩, none)
      else (NilObjectID, some .invalidHex)

/-! ## The response under construction (fiber `Ctx`) -/

/-- Modelled from the spec: a value handed to `c.JSON` of fiber.  For a slice,
`none` is Go's nil slice, which `encoding/json` writes as `null`, and `some es`
is a non-nil slice, written as a JSON array (`[]` when it has no element). -/
inductive JsonValue where
  | employee (e : Employee)
  | employees (es : Option (List Employee))
  | string (s : String)
deriving DecidableEq, Repr

/-- Modelled from the spec: the error of `encoding/json` on a `float32` that is
not finite, `json: unsupported value: ` followed by the formatted number. -/
def unsupportedValue (f : Float32) : String :=
  "json: unsupported value: " ++ f.formatNonFinite

/-- Modelled from the spec: the error, if any, `json.Marshal` returns for an
Employee: the fields are written in the order of the struct and the first
number that is not finite stops the encoder. -/
def Employee.marshalError (e : Employee) : Option String :=
  if e.Salary.isFinite = false then some (unsupportedValue e.Salary)
  else if e.Age.isFinite = false then some (unsupportedValue e.Age)
  else none

/-- Modelled from the spec: the error, if any, `json.Marshal` returns for a
slice of Employees: that of its first element that cannot be encoded. -/
def marshalErrorOfList : List Employee → Option String
  | [] => none
  | e :: es =>
    match e.marshalError with
    | some err => some err
    | none => marshalErrorOfList es

/-- Modelled from the spec: the error, if any, of fiber's JSON encoder
(`json.Marshal`) on a value a handler sends. -/
def JsonValue.marshalError : JsonValue → Option String
  | .employee e => e.marshalError
  | .employees none => none
  | .employees (some es) => marshalErrorOfList es
  | .string _ => none

/-- Modelled from the spec: the response body of fiber: raw text written by
`SendString`, or the JSON encoding of a value written by `JSON`.  `text ""` is
the body nothing was written to. -/
inductive Payload where
  | text (s : String)
  | json (v : JsonValue)
deriving DecidableEq, Repr

/-- Modelled from the spec: the test `len(c.fasthttp.Response.Body()) == 0`
inside `SendStatus` of fiber; a JSON encoding is never empty. -/
def Payload.isEmpty : Payload → Bool
  | .text s => s == ""
  | .json _ => false

/-- Modelled from the spec: the response part of `*fiber.Ctx`, the status code
and the body written so far. -/
structure Ctx where
  status : Nat
  body : Payload
deriving DecidableEq, Repr

/-- Modelled from the spec: the context a handler receives from the router,
with fasthttp's default status 200 and an empty body. -/
def Ctx.new : Ctx := ⟨200, .text ""⟩

/-- Modelled from the spec: `c.Status(status)` of fiber sets the status code. -/
def Ctx.Status (c : Ctx) (status : Nat) : Ctx := ⟨status, c.body⟩

/-- Modelled from the spec: `c.SendString(body)` of fiber replaces the body;
it never returns an error. -/
def Ctx.SendString (c : Ctx) (body : String) : Ctx := ⟨c.status, .text body⟩

/-- Modelled from the spec: `c.JSON(data)` of fiber: the context after the
call and the returned error.  When the encoder fails the error is returned and
nothing is written; otherwise the body becomes the JSON encoding of `data`. -/
def Ctx.JSON (c : Ctx) (data : JsonValue) : Ctx × Option String :=
  match data.marshalError with
  | some err => (c, some err)
  | none => (⟨c.status, .json data⟩, none)

/-- Modelled from the spec: fiber's `DefaultErrorHandler`, which `fiber.New()`
installs, on an error that is no `*fiber.Error`:
`c.Status(500).SendString(err.Error())`. -/
def DefaultErrorHandler (c : Ctx) (err : String) : Ctx := (c.Status 500).SendString err

/-- Modelled from the spec: what fiber makes of the value a handler returns:
a returned error goes to the error handler of the app. -/
def returned (r : Ctx × Option String) : Ctx :=
  match r with
  | (c, some err) => DefaultErrorHandler c err
  | (c, none) => c

/-- Modelled from the spec: `utils.StatusMessage` of fiber, for the codes the
handlers send (any other code gives the empty text here). -/
def StatusMessage (status : Nat) : String :=
  if status = 200 then "OK"
  else if status = 201 then "Created"
  else if status = 400 then "Bad Request"
  else if status = 404 then "Not Found"
  else if status = 500 then "Internal Server Error"
  else ""

/-- Modelled from the spec: `c.SendStatus(status)` of fiber sets the status
code and, only when no body has been written, the status text as body. -/
def Ctx.SendStatus (c : Ctx) (status : Nat) : Ctx :=
  let c := c.Status status
  if c.body.isEmpty then c.SendString (StatusMessage status) else c

/-- Modelled from the spec: the request body as `c.BodyParser` of fiber sees
it: either it deserialises into an Employee, or the parse fails with an error
description, leaving the struct it was given with the contents `filled` (all
zero for a JSON syntax error). -/
inductive Body where
  | valid (p : Employee)
  | malformed (err : String) (filled : Employee)
deriving DecidableEq, Repr

/-- Modelled from the spec: `c.BodyParser(employee)` of fiber, applied to the
fresh `new(Employee)` every handler passes: the struct after the call and the
returned error description, if any. -/
def BodyParser : Body → Employee × Option String
  | .valid p => (p, none)
  | .malformed err filled => (filled, some err)

/-! ## The collection (MongoDB driver) -/

/-- Modelled from the spec: the `_id` of a stored document: an ObjectID the
driver generated, or the string a writer supplied in the field `ID` of an
Employee. -/
inductive BsonId where
  | objectID (o : ObjectID)
  | string (s : String)
deriving DecidableEq, Repr

/-- Modelled from the spec: a document of the collection `employees`: `_id`
and the three fields the struct `Employee` writes under its default BSON keys
`name`, `salary`, `age`, the numbers being the doubles of `float32` values. -/
structure Doc where
  id : BsonId
  name : String
  salary : Float32
  age : Float32
deriving DecidableEq, Repr

/-- Modelled from the spec: the string the driver decodes an `_id` into: the
hex form of an ObjectID, or the string itself. -/
def BsonId.render : BsonId → String
  | .objectID o => o.Hex
  | .string s => s

/-- The Employee a document holds: the rendered `_id` and the three fields. -/
def Doc.toEmployee (d : Doc) : Employee := ⟨d.id.render, d.name, d.salary, d.age⟩

/-- Modelled from the spec: the driver's error for a double it cannot store in
a `float32` without loss (`errCannotTruncate`; newer drivers put the key of
the field before it). -/
def errCannotTruncate : String :=
  "float64 can only be truncated to a lower precision type when truncation is enabled"

/-- Modelled from the spec: the driver's decoding of a document into the
struct `Employee`.  For a `float32` field the driver tests
`float64(float32(f)) != f`, which holds for a NaN and for no other `float32`
value, and then fails. -/
def Doc.decode (d : Doc) : Except String Employee :=
  if d.salary.isNaN || d.age.isNaN then .error errCannotTruncate
  else .ok d.toEmployee

/-- Decoding of the documents of a cursor, in order, stopping at the first
that fails. -/
def decodeAll : List Doc → Except String (List Employee)
  | [] => .ok []
  | d :: ds =>
    match d.decode with
    | .error err => .error err
    | .ok e =>
      match decodeAll ds with
      | .error err => .error err
      | .ok es => .ok (e :: es)

/-- Modelled from the spec: the errors of a single-document driver call:
`mongo.ErrNoDocuments`, or any other failure with its description. -/
inductive MongoError where
  | noDocuments
  | other (description : String)
deriving DecidableEq, Repr

/-- The driver calls a handler can issue, with the identifier or document
each is given. -/
inductive StoreCall where
  | find
  | cursorAll
  | insertOne (document : Employee)
  | findOne (id : BsonId)
  | findOneAndUpdate (id : ObjectID) (name : String) (age salary : Float32)
  | deleteOne (id : ObjectID)
deriving DecidableEq, Repr

/-- Modelled from the spec: `Collection.Find` with the filter `bson.D{{}}`,
which every document of the collection matches.  `fate` is `some err` when the
call fails; otherwise the cursor ranges over the whole collection in
store-native order. -/
def Find (fate : Option String) (docs : List Doc) : Except String (List Doc) :=
  match fate with
  | some err => .error err
  | none => .ok docs

/-- Modelled from the spec: `Cursor.All(ctx, &results)`.  On a failure, of the
store (`fate`) or of the decoding of a document, `results` is left alone.
Otherwise it becomes the decoded documents, re-sliced from the slice it was
given: only a nil slice with no document to add stays nil. -/
def CursorAll (fate : Option String) (cursor : List Doc) (results : Option (List Employee)) :
    Option (List Employee) × Option String :=
  match fate with
  | some err => (results, some err)
  | none =>
    match decodeAll cursor with
    | .error err => (results, some err)
    | .ok es =>
      match results, es with
      | none, [] => (none, none)
      | _, _ => (some es, none)

/-- Modelled from the spec: the description of the write error MongoDB raises
on a duplicate `_id`. -/
def duplicateKeyError : String := "E11000 duplicate key error"

/-- Modelled from the spec: `Collection.InsertOne`.  The field `ID` is tagged
`bson:"_id,omitempty"`: when it is empty the driver generates the ObjectID
`generated` for `_id`, otherwise `_id` is the string.  MongoDB rejects an `_id`
that is already in the collection.  The result is the inserted id and the
collection with the document appended. -/
def InsertOne (fate : Option String) (generated : ObjectID) (document : Employee)
    (docs : List Doc) : Except String (BsonId × List Doc) :=
  match fate with
  | some err => .error err
  | none =>
    let id := if document.ID = "" then BsonId.objectID generated else BsonId.string document.ID
    if docs.any (fun d => d.id = id) then .error duplicateKeyError
    else .ok (id, docs ++ [⟨id, document.Name, document.Salary, document.Age⟩])

/-- Modelled from the spec: `Collection.FindOne` with the filter `_id = id`:
the `SingleResult`, holding the first matching document or an error. -/
def FindOne (fate : Option String) (id : BsonId) (docs : List Doc) : Except MongoError Doc :=
  match fate with
  | some err => .error (.other err)
  | none =>
    match docs.find? (fun d => d.id = id) with
    | none => .error .noDocuments
    | some d => .ok d

/-- Modelled from the spec: `SingleResult.Decode(out)`: the struct after the
call and the returned error.  On an error, of the call or of the decoding,
`out` is not written. -/
def SingleResultDecode (r : Except MongoError Doc) (out : Employee) :
    Employee × Option MongoError :=
  match r with
  | .error e => (out, some e)
  | .ok d =>
    match d.decode with
    | .error err => (out, some (.other err))
    | .ok e => (e, none)

/-- Modelled from the spec: the effect of the update `$set` on the first
document whose `_id` is `id`; `none` when no document matches. -/
def setFirst (id : BsonId) (name : String) (age salary : Float32) :
    List Doc → Option (List Doc)
  | [] => none
  | d :: ds =>
    if d.id = id then some (⟨d.id, name, salary, age⟩ :: ds)
    else (setFirst id name age salary ds).map (fun ds1 => d :: ds1)

/-- Modelled from the spec: `Collection.FindOneAndUpdate(filter, update).Err()`
with the filter `_id = id` and the update `$set` of name, age and salary: the
error, if any, and the collection afterwards.  Nothing is inserted when no
document matches. -/
def FindOneAndUpdate (fate : Option String) (id : ObjectID) (name : String)
    (age salary : Float32) (docs : List Doc) : Option MongoError × List Doc :=
  match fate with
  | some err => (some (.other err), docs)
  | none =>
    match setFirst (.objectID id) name age salary docs with
    | none => (some .noDocuments, docs)
    | some docs1 => (none, docs1)

/-- Modelled from the spec: the store's removal of the first document whose
`_id` is `id`: the number of documents removed and the remaining collection. -/
def removeFirst (id : BsonId) : List Doc → Nat × List Doc
  | [] => (0, [])
  | d :: ds =>
    if d.id = id then (1, ds)
    else ((removeFirst id ds).1, d :: (removeFirst id ds).2)

/-- Modelled from the spec: `Collection.DeleteOne` with the filter `_id = id`:
`DeletedCount` and the collection afterwards, or the error. -/
def DeleteOne (fate : Option String) (id : ObjectID) (docs : List Doc) :
    Except String (Nat × List Doc) :=
  match fate with
  | some err => .error err
  | none => .ok (removeFirst (.objectID id) docs)

/-! ## The handlers of `main` -/

/-- What one request leaves behind: the response, the collection afterwards
and the driver calls issued, in order. -/
structure Outcome where
  resp : Ctx
  docs : List Doc
  calls : List StoreCall
deriving DecidableEq, Repr

/-- The handler of `GET /employee` (`main.go`, lines 77-97).  `findFate` and
`allFate` say whether `Find` and `cursor.All` fail in the store. -/
def getEmployee (findFate allFate : Option String) (docs : List Doc) : Outcome :=
  let c := Ctx.new
  -- cursor, err := mg.Db.Collection("employees").Find(c.Context(), query)
  match Find findFate docs with
  | .error err => ⟨(c.Status 500).SendString err, docs, [.find]⟩
  | .ok cursor =>
    -- var employees []Employee = make([]Employee, 0)
    let employees : Option (List Employee) := some []
    -- if err := cursor.All(c.Context(), &employees); err != nil
    match CursorAll allFate cursor employees with
    | (_, some err) => ⟨(c.Status 500).SendString err, docs, [.find, .cursorAll]⟩
    | (employees, none) =>
      -- return c.JSON(employees)
      ⟨returned (c.JSON (.employees employees)), docs, [.find, .cursorAll]⟩

/-- The handler of `POST /employee` (`main.go`, lines 100-135).  `insertFate`
and `findFate` say whether `InsertOne` and the read-back `FindOne` fail in the
store; `generated` is the ObjectID the driver generates for the insert. -/
def postEmployee (insertFate findFate : Option String) (generated : ObjectID) (body : Body)
    (docs : List Doc) : Outcome :=
  let c := Ctx.new
  -- employee := new(Employee); if err := c.BodyParser(employee); err != nil
  match BodyParser body with
  | (_, some err) => ⟨(c.Status 400).SendString err, docs, []⟩
  | (employee, none) =>
    -- employee.ID = ""
    let employee : Employee := ⟨"", employee.Name, employee.Salary, employee.Age⟩
    -- insertionResult, err := collection.InsertOne(c.Context(), employee)
    match InsertOne insertFate generated employee docs with
    | .error err => ⟨(c.Status 500).SendString err, docs, [.insertOne employee]⟩
    | .ok (insertedID, docs1) =>
      -- createdRecord := collection.FindOne(c.Context(), filter)
      let createdRecord := FindOne findFate insertedID docs1
      -- createdEmployee := &Employee{}; createdRecord.Decode(createdEmployee)
      let createdEmployee := (SingleResultDecode createdRecord Employee.zero).1
      -- return c.Status(201).JSON(createdEmployee)
      ⟨returned ((c.Status 201).JSON (.employee createdEmployee)), docs1,
        [.insertOne employee, .findOne insertedID]⟩

/-- The handler of `PUT /employee/:id` (`main.go`, lines 137-184).  `fate`
says whether `FindOneAndUpdate` fails with an error other than "no document".
Neither of the two `if err != nil` blocks returns. -/
def putEmployee (fate : Option String) (idParam : String) (body : Body)
    (docs : List Doc) : Outcome :=
  let c := Ctx.new
  -- employeeID, err := primitive.ObjectIDFromHex(idParam)
  let employeeID := (ObjectIDFromHex idParam).1
  -- if err != nil { c.Status(400).SendString(err.Error()) }
  let c := match (ObjectIDFromHex idParam).2 with
    | some err => (c.Status 400).SendString err.Error
    | none => c
  -- employee := new(Employee); if err := c.BodyParser(employee); err != nil { ... }
  let employee := (BodyParser body).1
  let c := match (BodyParser body).2 with
    | some err => (c.Status 400).SendString err
    | none => c
  -- err = mg.Db.Collection("employees").FindOneAndUpdate(c.Context(), query, update).Err()
  let call := StoreCall.findOneAndUpdate employeeID employee.Name employee.Age employee.Salary
  match FindOneAndUpdate fate employeeID employee.Name employee.Age employee.Salary docs with
  | (some .noDocuments, docs1) => ⟨c.SendStatus 400, docs1, [call]⟩
  | (some (.other _), docs1) => ⟨c.SendStatus 500, docs1, [call]⟩
  | (none, docs1) =>
    -- employee.ID = idParam
    let employee : Employee := ⟨idParam, employee.Name, employee.Salary, employee.Age⟩
    -- return c.Status(200).JSON(employee)
    ⟨returned ((c.Status 200).JSON (.employee employee)), docs1, [call]⟩

/-- The handler of `DELETE /employee/:id` (`main.go`, lines 186-215).  `fate`
says whether `DeleteOne` fails.  The `if err != nil` block after
`ObjectIDFromHex` does not return. -/
def deleteEmployee (fate : Option String) (idParam : String) (docs : List Doc) : Outcome :=
  let c := Ctx.new
  -- employeeID, err := primitive.ObjectIDFromHex(idParam)
  let employeeID := (ObjectIDFromHex idParam).1
  -- if err != nil { c.Status(400).SendString(err.Error()) }
  let c := match (ObjectIDFromHex idParam).2 with
    | some err => (c.Status 400).SendString err.Error
    | none => c
  -- result, err := mg.Db.Collection("employees").DeleteOne(c.Context(), &query)
  match DeleteOne fate employeeID docs with
  | .error _ => ⟨c.SendStatus 500, docs, [.deleteOne employeeID]⟩
  | .ok (deletedCount, docs1) =>
    -- if result.DeletedCount < 1
    if deletedCount < 1 then ⟨c.SendStatus 404, docs1, [.deleteOne employeeID]⟩
    else
      -- return c.Status(200).JSON("record deleted!")
      ⟨returned ((c.Status 200).JSON (.string "record deleted!")), docs1,
        [.deleteOne employeeID]⟩

/-! ## Store invariants -/

/-- Whether an `_id` is an ObjectID. -/
def BsonId.isObjectID : BsonId → Bool
  | .objectID _ => true
  | .string _ => false

/-- MongoDB's unique index on `_id`: no two documents of a collection carry
the same `_id`. -/
def UniqueIds (docs : List Doc) : Prop := (docs.map Doc.id).Nodup

/-- Every `_id` of the collection is a driver-generated ObjectID, which is all
`postEmployee` ever inserts. -/
def OwnIds (docs : List Doc) : Prop := ∀ d ∈ docs, d.id.isObjectID = true

/-- The collections this service can reach: unique ids, all of them ObjectIDs. -/
def WellFormed (docs : List Doc) : Prop := UniqueIds docs ∧ OwnIds docs

/-- Every stored salary and age is a finite number. -/
def FiniteNumbers (docs : List Doc) : Prop :=
  ∀ d ∈ docs, d.salary.isFinite = true ∧ d.age.isFinite = true

instance (docs : List Doc) : Decidable (UniqueIds docs) := by
  unfold UniqueIds; infer_instance

instance (docs : List Doc) : Decidable (OwnIds docs) := by
  unfold OwnIds; infer_instance

instance (docs : List Doc) : Decidable (WellFormed docs) := by
  unfold WellFormed; infer_instance

instance (docs : List Doc) : Decidable (FiniteNumbers docs) := by
  unfold FiniteNumbers; infer_instance

/-! ## Sample data

Salaries and ages are written as the bit patterns of the `float32` values. -/

/-- The ObjectID `000000000000000000000001`. -/
def oid1 : ObjectID := ⟨[0, 0, 0, 0, 0, 0, 0, 0, 0, 0, 0, 1], rfl⟩

/-- The ObjectID `000000000000000000000002`. -/
def oid2 : ObjectID := ⟨[0, 0, 0, 0, 0, 0, 0, 0, 0, 0, 0, 2], rfl⟩

/-- The ObjectID `000000000000000000000003`. -/
def oid3 : ObjectID := ⟨[0, 0, 0, 0, 0, 0, 0, 0, 0, 0, 0, 3], rfl⟩

/-- The stored record of Ada: salary 1000, age 30. -/
def ada : Doc := ⟨.objectID oid1, "Ada", ⟨0x447A0000⟩, ⟨0x41F00000⟩⟩

/-- The stored record of Bob: salary 2000, age 41. -/
def bob : Doc := ⟨.objectID oid2, "Bob", ⟨0x44FA0000⟩, ⟨0x42240000⟩⟩

/-- The `float32` value +Inf. -/
def posInf : Float32 := ⟨0x7F800000⟩

/-- A stored record whose salary is +Inf, age 50. -/
def croesus : Doc := ⟨.objectID oid3, "Croesus", posInf, ⟨0x42480000⟩⟩

/-- A record stored under the nil ObjectID. -/
def nilRecord : Doc := ⟨.objectID NilObjectID, "Nil", ⟨0⟩, ⟨0⟩⟩

/-- The payload `"name":"Ada L.","salary":1200,"age":31`, carrying an id of
the client's choosing. -/
def adaL : Employee := ⟨"chosen-by-client", "Ada L.", ⟨0x44960000⟩, ⟨0x41F80000⟩⟩

/-! ## Identifiers: hex rendering and parsing -/

theorem hextable_byte : ∀ n, n < 16 →
    (String.utf8EncodeChar (hextable.getD n '0')).map UInt8.toNat =
      [(hextable.getD n '0').toNat] ∧
    fromHexChar (hextable.getD n '0').toNat = some n := by
  decide

theorem utf8Size_hextable : ∀ n, n < 16 → (hextable.getD n '0').utf8Size = 1 := by
  decide

theorem hexDecode_hexEncode (bs : List (Fin 256)) :
    hexDecode (goBytes (hexEncode bs)) = .ok bs := by
  induction bs with
  | nil => rfl
  | cons v vs ih =>
    have h1 : v.val / 16 < 16 := by omega
    have h2 : v.val % 16 < 16 := by omega
    have hv : Fin.ofNat (v.val / 16 * 16 + v.val % 16) = v := by
      apply Fin.ext
      show (v.val / 16 * 16 + v.val % 16) % 256 = v.val
      omega
    show hexDecode ((String.utf8EncodeChar (hextable.getD (v.val / 16) '0')).map UInt8.toNat ++
      ((String.utf8EncodeChar (hextable.getD (v.val % 16) '0')).map UInt8.toNat ++
        goBytes (hexEncode vs))) = .ok (v :: vs)
    rw [(hextable_byte _ h1).1, (hextable_byte _ h2).1]
    show hexDecode ((hextable.getD (v.val / 16) '0').toNat ::
      (hextable.getD (v.val % 16) '0').toNat :: goBytes (hexEncode vs)) = .ok (v :: vs)
    simp only [hexDecode, (hextable_byte _ h1).2, (hextable_byte _ h2).2, ih, hv]

theorem utf8Len_hexEncode (bs : List (Fin 256)) :
    String.utf8Len (hexEncode bs) = 2 * bs.length := by
  induction bs with
  | nil => rfl
  | cons v vs ih =>
    have h1 : v.val / 16 < 16 := by omega
    have h2 : v.val % 16 < 16 := by omega
    simp only [hexEncode, encodeByte, List.cons_append, List.nil_append, String.utf8Len_cons,
      utf8Size_hextable _ h1, utf8Size_hextable _ h2, ih, List.length_cons]
    omega

/-- Parsing the hex form of an ObjectID gives the ObjectID back. -/
theorem ObjectIDFromHex_Hex (o : ObjectID) : ObjectIDFromHex o.Hex = (o, none) := by
  have hlen : o.Hex.utf8ByteSize = 24 := by
    show String.utf8Len (hexEncode o.bytes) = 24
    rw [utf8Len_hexEncode, o.size]
  have hdec : hexDecode (goBytes o.Hex.data) = .ok o.bytes := hexDecode_hexEncode o.bytes
  unfold ObjectIDFromHex
  simp only [hlen, ne_eq, not_true_eq_false, if_false, hdec, o.size, dite_true]

theorem Hex_ne_empty (o : ObjectID) : o.Hex ≠ "" := by
  intro h
  have := congrArg String.utf8ByteSize h
  have hlen : o.Hex.utf8ByteSize = 24 := by
    show String.utf8Len (hexEncode o.bytes) = 24
    rw [utf8Len_hexEncode, o.size]
  rw [hlen] at this
  exact absurd this (by decide)

theorem Hex_injective (o p : ObjectID) (h : o.Hex = p.Hex) : o = p := by
  have h1 := ObjectIDFromHex_Hex o
  rw [h, ObjectIDFromHex_Hex p] at h1
  exact (Prod.mk.inj h1).1.symm

/-! ## Numbers: decoding and JSON encoding of finite values -/

theorem isNaN_of_isFinite (f : Float32) (h : f.isFinite = true) : f.isNaN = false := by
  unfold Float32.isFinite at h
  unfold Float32.isNaN
  cases hexp : (f.exponent == 255) with
  | false => rfl
  | true => rw [bne, hexp] at h; cases h

theorem decode_of_finite (d : Doc) (h : d.salary.isFinite = true ∧ d.age.isFinite = true) :
    d.decode = .ok d.toEmployee := by
  unfold Doc.decode
  rw [isNaN_of_isFinite _ h.1, isNaN_of_isFinite _ h.2]
  rfl

theorem decodeAll_of_finite (docs : List Doc) (h : FiniteNumbers docs) :
    decodeAll docs = .ok (docs.map Doc.toEmployee) := by
  induction docs with
  | nil => rfl
  | cons d ds ih =>
    have hd := h d (List.mem_cons_self _ _)
    have hds : FiniteNumbers ds := fun x hx => h x (List.mem_cons_of_mem _ hx)
    simp only [decodeAll, decode_of_finite d hd, ih hds, List.map_cons]

theorem marshalError_of_finite (e : Employee) (h : e.Finite) : e.marshalError = none := by
  unfold Employee.marshalError
  rw [h.1, h.2]
  rfl

theorem marshalErrorOfList_of_finite (docs : List Doc) (h : FiniteNumbers docs) :
    marshalErrorOfList (docs.map Doc.toEmployee) = none := by
  induction docs with
  | nil => rfl
  | cons d ds ih =>
    have hd : d.toEmployee.Finite := h d (List.mem_cons_self _ _)
    have hds : FiniteNumbers ds := fun x hx => h x (List.mem_cons_of_mem _ hx)
    simp only [List.map_cons, marshalErrorOfList, marshalError_of_finite _ hd, ih hds]

/-! ## The driver model: update and removal of the first match -/

theorem map_set_of_absent (id : BsonId) (name : String) (age salary : Float32) (ds : List Doc)
    (h : ∀ d ∈ ds, d.id ≠ id) :
    ds.map (fun d => if d.id = id then (⟨d.id, name, salary, age⟩ : Doc) else d) = ds := by
  induction ds with
  | nil => rfl
  | cons d ds ih =>
    have hd : d.id ≠ id := h d (List.mem_cons_self _ _)
    have hds : ∀ x ∈ ds, x.id ≠ id := fun x hx => h x (List.mem_cons_of_mem _ hx)
    simp only [List.map_cons, if_neg hd, ih hds]

theorem setFirst_absent (id : BsonId) (name : String) (age salary : Float32) (ds : List Doc)
    (h : ∀ d ∈ ds, d.id ≠ id) : setFirst id name age salary ds = none := by
  induction ds with
  | nil => rfl
  | cons d ds ih =>
    have hd : d.id ≠ id := h d (List.mem_cons_self _ _)
    have hds : ∀ x ∈ ds, x.id ≠ id := fun x hx => h x (List.mem_cons_of_mem _ hx)
    simp only [setFirst, if_neg hd, ih hds, Option.map_none']

theorem setFirst_present (id : BsonId) (name : String) (age salary : Float32) (ds : List Doc)
    (hnodup : (ds.map Doc.id).Nodup) (h : ∃ d ∈ ds, d.id = id) :
    setFirst id name age salary ds =
      some (ds.map (fun d => if d.id = id then (⟨d.id, name, salary, age⟩ : Doc) else d)) := by
  induction ds with
  | nil => obtain ⟨d, hd, _⟩ := h; cases hd
  | cons d ds ih =>
    rw [List.map_cons, List.nodup_cons] at hnodup
    by_cases hd : d.id = id
    · have hrest : ∀ x ∈ ds, x.id ≠ id := by
        intro x hx hxid
        exact hnodup.1 (List.mem_map.mpr ⟨x, hx, hxid.trans hd.symm⟩)
      simp only [setFirst, if_pos hd, List.map_cons, map_set_of_absent id name age salary ds hrest]
    · have hin : ∃ x ∈ ds, x.id = id := by
        obtain ⟨x, hx, hxid⟩ := h
        rcases List.mem_cons.mp hx with rfl | hx
        · exact absurd hxid hd
        · exact ⟨x, hx, hxid⟩
      simp only [setFirst, if_neg hd, ih hnodup.2 hin, Option.map_some', List.map_cons]

theorem removeFirst_absent (id : BsonId) (ds : List Doc) (h : ∀ d ∈ ds, d.id ≠ id) :
    removeFirst id ds = (0, ds) := by
  induction ds with
  | nil => rfl
  | cons d ds ih =>
    have hd : d.id ≠ id := h d (List.mem_cons_self _ _)
    have hds : ∀ x ∈ ds, x.id ≠ id := fun x hx => h x (List.mem_cons_of_mem _ hx)
    simp only [removeFirst, if_neg hd, ih hds]

theorem filter_of_absent (id : BsonId) (ds : List Doc) (h : ∀ d ∈ ds, d.id ≠ id) :
    ds.filter (fun d => decide (d.id ≠ id)) = ds := by
  apply List.filter_eq_self.mpr
  intro d hd
  exact decide_eq_true (h d hd)

theorem removeFirst_present (id : BsonId) (ds : List Doc)
    (hnodup : (ds.map Doc.id).Nodup) (h : ∃ d ∈ ds, d.id = id) :
    removeFirst id ds = (1, ds.filter (fun d => decide (d.id ≠ id))) := by
  induction ds with
  | nil => obtain ⟨d, hd, _⟩ := h; cases hd
  | cons d ds ih =>
    rw [List.map_cons, List.nodup_cons] at hnodup
    by_cases hd : d.id = id
    · have hrest : ∀ x ∈ ds, x.id ≠ id := by
        intro x hx hxid
        exact hnodup.1 (List.mem_map.mpr ⟨x, hx, hxid.trans hd.symm⟩)
      have hf : (d :: ds).filter (fun d => decide (d.id ≠ id)) = ds := by
        rw [List.filter_cons_of_neg (by simp [hd]), filter_of_absent id ds hrest]
      simp only [removeFirst, if_pos hd, hf]
    · have hin : ∃ x ∈ ds, x.id = id := by
        obtain ⟨x, hx, hxid⟩ := h
        rcases List.mem_cons.mp hx with rfl | hx
        · exact absurd hxid hd
        · exact ⟨x, hx, hxid⟩
      have hf : (d :: ds).filter (fun d => decide (d.id ≠ id)) =
          d :: ds.filter (fun d => decide (d.id ≠ id)) := by
        rw [List.filter_cons_of_pos (by simp [hd])]
      simp only [removeFirst, if_neg hd, ih hnodup.2 hin, hf]

theorem length_filter_present (id : BsonId) (ds : List Doc)
    (hnodup : (ds.map Doc.id).Nodup) (h : ∃ d ∈ ds, d.id = id) :
    (ds.filter (fun d => decide (d.id ≠ id))).length + 1 = ds.length := by
  induction ds with
  | nil => obtain ⟨d, hd, _⟩ := h; cases hd
  | cons d ds ih =>
    rw [List.map_cons, List.nodup_cons] at hnodup
    by_cases hd : d.id = id
    · have hrest : ∀ x ∈ ds, x.id ≠ id := by
        intro x hx hxid
        exact hnodup.1 (List.mem_map.mpr ⟨x, hx, hxid.trans hd.symm⟩)
      rw [List.filter_cons_of_neg (by simp [hd]), filter_of_absent id ds hrest, List.length_cons]
    · have hin : ∃ x ∈ ds, x.id = id := by
        obtain ⟨x, hx, hxid⟩ := h
        rcases List.mem_cons.mp hx with rfl | hx
        · exact absurd hxid hd
        · exact ⟨x, hx, hxid⟩
      rw [List.filter_cons_of_pos (by simp [hd]), List.length_cons, List.length_cons,
        ih hnodup.2 hin]

/-! ## Facts about single handlers -/

theorem getEmployee_reads (docs : List Doc) (hfinite : FiniteNumbers docs) :
    getEmployee none none docs =
      ⟨⟨200, .json (.employees (some (docs.map Doc.toEmployee)))⟩, docs,
        [.find, .cursorAll]⟩ := by
  have hm := marshalErrorOfList_of_finite docs hfinite
  simp only [getEmployee, Find, CursorAll, decodeAll_of_finite docs hfinite]
  cases hmap : docs.map Doc.toEmployee with
  | nil => rfl
  | cons e es =>
    rw [hmap] at hm
    simp only [Ctx.JSON, JsonValue.marshalError, hm, returned]
    rfl

theorem postEmployee_created (docs : List Doc) (P : Employee) (generated : ObjectID)
    (insertFate findFate : Option String)
    (hcreated : (postEmployee insertFate findFate generated (.valid P) docs).resp.status = 201) :
    (∀ d ∈ docs, d.id ≠ .objectID generated) ∧
    (postEmployee insertFate findFate generated (.valid P) docs).docs =
      docs ++ [⟨.objectID generated, P.Name, P.Salary, P.Age⟩] := by
  cases insertFate with
  | some err =>
    simp [postEmployee, BodyParser, InsertOne, Ctx.Status, Ctx.SendString] at hcreated
  | none =>
    by_cases hany : docs.any (fun d => decide (d.id = BsonId.objectID generated)) = true
    · simp [postEmployee, BodyParser, InsertOne, hany, Ctx.Status, Ctx.SendString] at hcreated
    · constructor
      · intro d hd hid
        apply hany
        exact List.any_eq_true.mpr ⟨d, hd, decide_eq_true hid⟩
      · simp [postEmployee, BodyParser, InsertOne, hany]

theorem find_appended (docs : List Doc) (x : Doc) (h : ∀ d ∈ docs, d.id ≠ x.id) :
    (docs ++ [x]).find? (fun d => decide (d.id = x.id)) = some x := by
  induction docs with
  | nil => simp
  | cons d ds ih =>
    have hd : d.id ≠ x.id := h d (List.mem_cons_self _ _)
    have hds : ∀ y ∈ ds, y.id ≠ x.id := fun y hy => h y (List.mem_cons_of_mem _ hy)
    simp only [List.cons_append, List.find?_cons, hd, decide_False, ih hds]

/-- The part of the create contract the code keeps: the document handed to
`InsertOne` has an empty id whatever the body carried, and when the insert and
the read-back both succeed the response to a JSON payload is 201 with the
stored record under the generated, non-empty identifier. -/
theorem postEmployee_readback (docs : List Doc) (P : Employee) (generated : ObjectID)
    (insertFate : Option String) (hjson : P.Finite)
    (hcreated : (postEmployee insertFate none generated (.valid P) docs).resp.status = 201) :
    (postEmployee insertFate none generated (.valid P) docs).calls =
      [.insertOne ⟨"", P.Name, P.Salary, P.Age⟩, .findOne (.objectID generated)] ∧
    (postEmployee insertFate none generated (.valid P) docs).resp =
      ⟨201, .json (.employee ⟨generated.Hex, P.Name, P.Salary, P.Age⟩)⟩ ∧
    generated.Hex ≠ "" := by
  obtain ⟨hfresh, _⟩ := postEmployee_created docs P generated insertFate none hcreated
  cases insertFate with
  | some err =>
    simp [postEmployee, BodyParser, InsertOne, Ctx.Status, Ctx.SendString] at hcreated
  | none =>
    have hany : ¬ docs.any (fun d => decide (d.id = BsonId.objectID generated)) = true := by
      intro h
      obtain ⟨d, hd, hid⟩ := List.any_eq_true.mp h
      exact hfresh d hd (of_decide_eq_true hid)
    have hfind : (docs ++ [(⟨.objectID generated, P.Name, P.Salary, P.Age⟩ : Doc)]).find?
          (fun d => decide (d.id = BsonId.objectID generated)) =
        some ⟨.objectID generated, P.Name, P.Salary, P.Age⟩ :=
      find_appended docs ⟨.objectID generated, P.Name, P.Salary, P.Age⟩ hfresh
    have hdec : (⟨.objectID generated, P.Name, P.Salary, P.Age⟩ : Doc).decode =
        .ok ⟨generated.Hex, P.Name, P.Salary, P.Age⟩ :=
      decode_of_finite ⟨.objectID generated, P.Name, P.Salary, P.Age⟩ hjson
    have hm : (⟨generated.Hex, P.Name, P.Salary, P.Age⟩ : Employee).marshalError = none :=
      marshalError_of_finite ⟨generated.Hex, P.Name, P.Salary, P.Age⟩ hjson
    refine ⟨?_, ?_, Hex_ne_empty generated⟩
    · simp [postEmployee, BodyParser, InsertOne, hany]
    · simp only [postEmployee, BodyParser, InsertOne, FindOne, SingleResultDecode, if_true]
      rw [if_neg hany]
      simp only [hfind, hdec, Ctx.JSON, JsonValue.marshalError, hm, returned]
      rfl

/-- A malformed body on `POST /employee`: status 400, the parser's error
description as body, no driver call and the collection as before. -/
theorem postEmployee_malformed (docs : List Doc) (err : String) (filled : Employee)
    (insertFate findFate : Option String) (generated : ObjectID) :
    postEmployee insertFate findFate generated (.malformed err filled) docs =
      ⟨⟨400, .text err⟩, docs, []⟩ := rfl

/-- The update handler writes what the parser left in the struct also when the
parse failed: a body whose parse fails after the salary was read as +Inf (an
XML or form body with the salary `Inf` and an age that is no number) puts +Inf
into the collection, and the JSON encoder then refuses the response. -/
theorem putEmployee_stores_infinity :
    putEmployee none "000000000000000000000001"
        (.malformed "age: invalid syntax" ⟨"", "Ada", posInf, ⟨0⟩⟩) [ada] =
      ⟨⟨500, .text "json: unsupported value: +Inf"⟩,
       [⟨.objectID oid1, "Ada", posInf, ⟨0⟩⟩],
       [.findOneAndUpdate oid1 "Ada" ⟨0⟩ posInf]⟩ := by
  decide

/-- For every path value, parseable or not: when the filter the delete handler
builds from it matches no document, the response is 404 and the collection is
as before. -/
theorem deleteEmployee_no_match (docs : List Doc) (i : String)
    (h : ∀ d ∈ docs, d.id ≠ .objectID (ObjectIDFromHex i).1) :
    (deleteEmployee none i docs).resp.status = 404 ∧
    (deleteEmployee none i docs).docs = docs := by
  simp only [deleteEmployee, DeleteOne, removeFirst_absent _ docs h]
  constructor
  · simp only [Nat.lt_irrefl, Nat.zero_lt_one, if_true, Ctx.SendStatus, Ctx.Status]
    split <;> rfl
  · rfl

/-- For an identifier in the store's format that no record carries, the delete
handler responds 404 "Not Found" and leaves the collection as it was. -/
theorem deleteEmployee_absent (docs : List Doc) (i : String) (o : ObjectID)
    (hparse : ObjectIDFromHex i = (o, none))
    (habsent : ∀ d ∈ docs, d.id ≠ .objectID o) :
    (deleteEmployee none i docs).resp = ⟨404, .text "Not Found"⟩ ∧
    (deleteEmployee none i docs).docs = docs := by
  simp only [deleteEmployee, hparse, DeleteOne, removeFirst_absent _ docs habsent]
  exact ⟨rfl, rfl⟩

/-! ## The store invariant is kept by every handler -/

theorem setFirst_ids (id : BsonId) (name : String) (age salary : Float32) (ds ds1 : List Doc)
    (h : setFirst id name age salary ds = some ds1) : ds1.map Doc.id = ds.map Doc.id := by
  induction ds generalizing ds1 with
  | nil => cases h
  | cons d ds ih =>
    by_cases hd : d.id = id
    · simp only [setFirst, if_pos hd, Option.some.injEq] at h
      rw [← h]; rfl
    · simp only [setFirst, if_neg hd] at h
      cases hrec : setFirst id name age salary ds with
      | none => rw [hrec] at h; cases h
      | some ds2 =>
        rw [hrec] at h
        simp only [Option.map_some', Option.some.injEq] at h
        rw [← h, List.map_cons, List.map_cons, ih ds2 hrec]

theorem removeFirst_sublist (id : BsonId) (ds : List Doc) :
    List.Sublist (removeFirst id ds).2 ds := by
  induction ds with
  | nil => exact List.Sublist.slnil
  | cons d ds ih =>
    by_cases hd : d.id = id
    · simp only [removeFirst, if_pos hd]
      exact List.sublist_cons_self d ds
    · simp only [removeFirst, if_neg hd]
      exact List.Sublist.cons₂ d ih

theorem wellFormed_of_ids (ds ds1 : List Doc) (h : ds1.map Doc.id = ds.map Doc.id)
    (hwf : WellFormed ds) : WellFormed ds1 := by
  refine ⟨by unfold UniqueIds; rw [h]; exact hwf.1, ?_⟩
  intro d hd
  have hmem : d.id ∈ ds.map Doc.id := by rw [← h]; exact List.mem_map_of_mem _ hd
  obtain ⟨x, hx, hxid⟩ := List.mem_map.mp hmem
  rw [← hxid]
  exact hwf.2 x hx

theorem wellFormed_of_sublist (ds ds1 : List Doc) (h : List.Sublist ds1 ds)
    (hwf : WellFormed ds) : WellFormed ds1 :=
  ⟨List.Nodup.sublist (List.Sublist.map Doc.id h) hwf.1, fun d hd => hwf.2 d (h.subset hd)⟩

/-- The empty collection is well-formed. -/
theorem wellFormed_nil : WellFormed [] := by decide

/-- The list handler never changes the collection. -/
theorem getEmployee_docs (findFate allFate : Option String) (docs : List Doc) :
    (getEmployee findFate allFate docs).docs = docs := by
  cases findFate with
  | some err => rfl
  | none =>
    simp only [getEmployee, Find]
    split <;> rfl

/-- The create handler keeps the collection well-formed, whatever the body,
the generated identifier and the fate of the driver calls. -/
theorem postEmployee_wellFormed (insertFate findFate : Option String) (generated : ObjectID)
    (body : Body) (docs : List Doc) (hwf : WellFormed docs) :
    WellFormed (postEmployee insertFate findFate generated body docs).docs := by
  cases body with
  | malformed err filled => exact hwf
  | valid P =>
    cases insertFate with
    | some err => exact hwf
    | none =>
      by_cases hany : docs.any (fun d => decide (d.id = BsonId.objectID generated)) = true
      · have : (postEmployee none findFate generated (.valid P) docs).docs = docs := by
          simp [postEmployee, BodyParser, InsertOne, hany]
        rw [this]; exact hwf
      · have hfresh : ∀ d ∈ docs, d.id ≠ .objectID generated := by
          intro d hd hid
          exact hany (List.any_eq_true.mpr ⟨d, hd, decide_eq_true hid⟩)
        have : (postEmployee none findFate generated (.valid P) docs).docs =
            docs ++ [⟨.objectID generated, P.Name, P.Salary, P.Age⟩] := by
          simp [postEmployee, BodyParser, InsertOne, hany]
        rw [this]
        refine ⟨?_, ?_⟩
        · unfold UniqueIds
          rw [List.map_append, List.nodup_append]
          refine ⟨hwf.1, List.nodup_singleton _, ?_⟩
          intro a ha hb
          obtain ⟨d, hd, hda⟩ := List.mem_map.mp ha
          simp only [List.map_cons, List.map_nil, List.mem_singleton] at hb
          exact hfresh d hd (hda.trans hb)
        · intro d hd
          rcases List.mem_append.mp hd with h | h
          · exact hwf.2 d h
          · rw [List.mem_singleton.mp h]; rfl

/-- The update handler keeps the identifiers of the collection, hence its
well-formedness, whatever the path value, the body and the fate of the call. -/
theorem putEmployee_ids (fate : Option String) (idParam : String) (body : Body)
    (docs : List Doc) :
    (putEmployee fate idParam body docs).docs.map Doc.id = docs.map Doc.id := by
  cases fate with
  | some err => rfl
  | none =>
    cases hset : setFirst (.objectID (ObjectIDFromHex idParam).1) (BodyParser body).1.Name
        (BodyParser body).1.Age (BodyParser body).1.Salary docs with
    | none => simp only [putEmployee, FindOneAndUpdate, hset]
    | some ds1 =>
      simp only [putEmployee, FindOneAndUpdate, hset]
      exact setFirst_ids _ _ _ _ docs ds1 hset

theorem putEmployee_wellFormed (fate : Option String) (idParam : String) (body : Body)
    (docs : List Doc) (hwf : WellFormed docs) :
    WellFormed (putEmployee fate idParam body docs).docs :=
  wellFormed_of_ids docs _ (putEmployee_ids fate idParam body docs) hwf

/-- The delete handler keeps the collection well-formed. -/
theorem deleteEmployee_wellFormed (fate : Option String) (idParam : String)
    (docs : List Doc) (hwf : WellFormed docs) :
    WellFormed (deleteEmployee fate idParam docs).docs := by
  cases fate with
  | some err => exact hwf
  | none =>
    have hsub := removeFirst_sublist (.objectID (ObjectIDFromHex idParam).1) docs
    have : (deleteEmployee none idParam docs).docs =
        (removeFirst (.objectID (ObjectIDFromHex idParam).1) docs).2 := by
      simp only [deleteEmployee, DeleteOne]
      split <;> rfl
    rw [this]
    exact wellFormed_of_sublist docs _ hsub hwf

/-! ## The claims -/

/-- C10, as the claim states it, fails: with a record whose salary is +Inf in
the collection, `Find` and `cursor.All` answer, the JSON encoder refuses the
slice and `GET /employee` responds 500, not 200. -/
theorem getEmployee_infinite_salary_counterexample :
    (getEmployee none none [ada, croesus]).resp = ⟨500, .text "json: unsupported value: +Inf"⟩ ∧
    ¬ ((getEmployee none none [ada, croesus]).resp.status = 200) := by
  decide

/-- C10, amended: when the store answers and every stored salary and age is a
finite number, `GET /employee` responds 200 with a JSON array holding the
records of the collection, each once and in store order, issues only the two
read calls and leaves the collection as it was; for the empty collection the
body is the empty array, which is neither `null` nor an unwritten body. -/
theorem getEmployee_lists_collection (docs : List Doc) (hfinite : FiniteNumbers docs) :
    getEmployee none none docs =
      ⟨⟨200, .json (.employees (some (docs.map Doc.toEmployee)))⟩, docs,
        [.find, .cursorAll]⟩ ∧
    (getEmployee none none []).resp = ⟨200, .json (.employees (some []))⟩ ∧
    (getEmployee none none []).resp.body ≠ .json (.employees none) ∧
    (getEmployee none none []).resp.body.isEmpty = false := by
  exact ⟨getEmployee_reads docs hfinite, rfl, by decide, rfl⟩

/-- Witness: the collection holding Ada and Bob is listed. -/
theorem getEmployee_lists_collection_witness :
    getEmployee none none [ada, bob] =
      ⟨⟨200, .json (.employees (some [ada.toEmployee, bob.toEmployee]))⟩, [ada, bob],
        [.find, .cursorAll]⟩ :=
  (getEmployee_lists_collection [ada, bob] (by decide)).1

/-- C7, the failing input: the path value `not-an-object-id` is the id of no
record of the collection, yet `DELETE /employee/not-an-object-id` does not
answer 404 with the collection unchanged: the handler goes on with
`NilObjectID`, removes the record stored under it and responds 200. -/
theorem deleteEmployee_unparsable_removes_nil_record :
    (∀ d ∈ [nilRecord, ada], d.id.render ≠ "not-an-object-id") ∧
    deleteEmployee none "not-an-object-id" [nilRecord, ada] =
      ⟨⟨200, .json (.string "record deleted!")⟩, [ada], [.deleteOne NilObjectID]⟩ := by
  decide

/-- C6: for a parseable identifier `i` that no record of the collection
carries and any body, well-formed or not, `PUT /employee/i` responds with
status 400 (so never 200) and the collection afterwards is the collection
before: nothing is created, nothing is modified. -/
theorem putEmployee_absent (docs : List Doc) (i : String) (o : ObjectID) (body : Body)
    (hparse : ObjectIDFromHex i = (o, none))
    (habsent : ∀ d ∈ docs, d.id ≠ .objectID o) :
    (putEmployee none i body docs).resp.status = 400 ∧
    (putEmployee none i body docs).resp.status ≠ 200 ∧
    (putEmployee none i body docs).docs = docs := by
  simp only [putEmployee, hparse, FindOneAndUpdate, setFirst_absent _ _ _ _ docs habsent]
  cases body <;> simp [BodyParser, Ctx.SendStatus, Ctx.Status, Ctx.SendString]
  all_goals split <;> simp

/-- Witness: the absent identifier 000000000000000000000002 is updated on the
collection holding Ada alone. -/
theorem putEmployee_absent_witness :
    (putEmployee none "000000000000000000000002" (.valid adaL) [ada]).resp.status = 400 ∧
    (putEmployee none "000000000000000000000002" (.valid adaL) [ada]).resp.status ≠ 200 ∧
    (putEmployee none "000000000000000000000002" (.valid adaL) [ada]).docs = [ada] :=
  putEmployee_absent [ada] "000000000000000000000002" oid2 (.valid adaL) (by decide) (by decide)

/-- C5: on a collection with unique ids, for a parseable identifier `i` of one
of its records and a well-formed body `P` (whatever id `P` carries),
`PUT /employee/i` gives the record with that identifier the name, salary and
age of `P` and keeps its id, leaves every other record as it was, and does not
change the identifiers or the number of records; the numbers of a JSON body
being finite, the response is 200 with the Employee whose id is the path value
`i` and whose name, salary and age are those of `P`. -/
theorem putEmployee_existing (docs : List Doc) (i : String) (o : ObjectID) (P : Employee)
    (hunique : UniqueIds docs)
    (hparse : ObjectIDFromHex i = (o, none))
    (hpresent : ∃ d ∈ docs, d.id = .objectID o) :
    (P.Finite → (putEmployee none i (.valid P) docs).resp =
      ⟨200, .json (.employee ⟨i, P.Name, P.Salary, P.Age⟩)⟩) ∧
    (putEmployee none i (.valid P) docs).docs =
      docs.map (fun d =>
        if d.id = .objectID o then (⟨.objectID o, P.Name, P.Salary, P.Age⟩ : Doc) else d) ∧
    ((putEmployee none i (.valid P) docs).docs).map Doc.id = docs.map Doc.id ∧
    ((putEmployee none i (.valid P) docs).docs).length = docs.length := by
  have hset := setFirst_present (.objectID o) P.Name P.Age P.Salary docs hunique hpresent
  have hmap : docs.map (fun d =>
        if d.id = .objectID o then (⟨d.id, P.Name, P.Salary, P.Age⟩ : Doc) else d) =
      docs.map (fun d =>
        if d.id = .objectID o then (⟨.objectID o, P.Name, P.Salary, P.Age⟩ : Doc) else d) := by
    apply List.map_congr_left
    intro d _
    by_cases hd : d.id = .objectID o
    · simp only [if_pos hd, hd]
    · simp only [if_neg hd]
  have hdocs : (putEmployee none i (.valid P) docs).docs =
      docs.map (fun d =>
        if d.id = .objectID o then (⟨.objectID o, P.Name, P.Salary, P.Age⟩ : Doc) else d) := by
    simp only [putEmployee, hparse, BodyParser, FindOneAndUpdate, hset, hmap]
  refine ⟨?_, hdocs, ?_, ?_⟩
  · intro hjson
    have hm : (⟨i, P.Name, P.Salary, P.Age⟩ : Employee).marshalError = none :=
      marshalError_of_finite ⟨i, P.Name, P.Salary, P.Age⟩ hjson
    simp only [putEmployee, hparse, BodyParser, FindOneAndUpdate, hset, Ctx.JSON,
      JsonValue.marshalError, hm, returned]
    rfl
  · rw [hdocs, List.map_map]
    apply List.map_congr_left
    intro d _
    by_cases hd : d.id = .objectID o
    · show (if d.id = BsonId.objectID o then
          (⟨.objectID o, P.Name, P.Salary, P.Age⟩ : Doc) else d).id = d.id
      rw [if_pos hd, hd]
    · show (if d.id = BsonId.objectID o then
          (⟨.objectID o, P.Name, P.Salary, P.Age⟩ : Doc) else d).id = d.id
      rw [if_neg hd]
  · rw [hdocs, List.length_map]

/-- Witness: Ada, stored next to Bob, is updated with the payload `adaL`. -/
theorem putEmployee_existing_witness :
    (putEmployee none "000000000000000000000001" (.valid adaL) [ada, bob]).resp =
      ⟨200, .json (.employee ⟨"000000000000000000000001", adaL.Name, adaL.Salary, adaL.Age⟩)⟩ ∧
    (putEmployee none "000000000000000000000001" (.valid adaL) [ada, bob]).docs =
      [ada, bob].map (fun d =>
        if d.id = .objectID oid1 then (⟨.objectID oid1, adaL.Name, adaL.Salary, adaL.Age⟩ : Doc)
        else d) ∧
    ((putEmployee none "000000000000000000000001" (.valid adaL) [ada, bob]).docs).map Doc.id =
      [ada, bob].map Doc.id ∧
    ((putEmployee none "000000000000000000000001" (.valid adaL) [ada, bob]).docs).length =
      [ada, bob].length :=
  ⟨(putEmployee_existing [ada, bob] "000000000000000000000001" oid1 adaL (by decide) (by decide)
      ⟨ada, by decide, rfl⟩).1 (by decide),
   (putEmployee_existing [ada, bob] "000000000000000000000001" oid1 adaL (by decide) (by decide)
      ⟨ada, by decide, rfl⟩).2⟩

/-- C8, as the claim states it, fails: Ada is deleted from the collection
holding Ada and a record whose salary is +Inf; the delete responds 200, and
the following `GET /employee` responds 500 with the encoder's error instead of
an array without Ada. -/
theorem delete_then_list_counterexample :
    (deleteEmployee none "000000000000000000000001" [ada, croesus]).resp.status = 200 ∧
    (getEmployee none none
      (deleteEmployee none "000000000000000000000001" [ada, croesus]).docs).resp =
      ⟨500, .text "json: unsupported value: +Inf"⟩ := by
  decide

/-- C8, amended: on a collection with unique ids, for an identifier `i` of one
of its records, `DELETE /employee/i` responds 200 with the confirmation
"record deleted!"; the collection afterwards is the previous one without the
record whose id is `i`, has exactly one record fewer and holds no record under
that identifier; and when the salaries and ages of the remaining records are
finite, a following `GET /employee` responds 200 with the array of the
remaining records, in which, the ids of the collection being ObjectIDs as all
ids this service assigns are, no record has the id `i`. -/
theorem deleteEmployee_existing (docs : List Doc) (i : String) (o : ObjectID)
    (hunique : UniqueIds docs)
    (hparse : ObjectIDFromHex i = (o, none))
    (hpresent : ∃ d ∈ docs, d.id = .objectID o) :
    (deleteEmployee none i docs).resp = ⟨200, .json (.string "record deleted!")⟩ ∧
    (deleteEmployee none i docs).docs = docs.filter (fun d => decide (d.id ≠ .objectID o)) ∧
    (deleteEmployee none i docs).docs.length + 1 = docs.length ∧
    (∀ d ∈ (deleteEmployee none i docs).docs, d.id ≠ .objectID o) ∧
    (FiniteNumbers (deleteEmployee none i docs).docs →
      (getEmployee none none (deleteEmployee none i docs).docs).resp =
        ⟨200, .json (.employees (some ((deleteEmployee none i docs).docs.map Doc.toEmployee)))⟩) ∧
    (OwnIds docs → ∀ e ∈ (deleteEmployee none i docs).docs.map Doc.toEmployee, e.ID ≠ i) := by
  have hrem := removeFirst_present (.objectID o) docs hunique hpresent
  have hdocs : (deleteEmployee none i docs).docs =
      docs.filter (fun d => decide (d.id ≠ .objectID o)) := by
    simp only [deleteEmployee, hparse, DeleteOne, hrem]
    rfl
  refine ⟨?_, hdocs, ?_, ?_, ?_, ?_⟩
  · simp only [deleteEmployee, hparse, DeleteOne, hrem]
    rfl
  · rw [hdocs]
    exact length_filter_present (.objectID o) docs hunique hpresent
  · rw [hdocs]
    intro d hd
    exact of_decide_eq_true (List.mem_filter.mp hd).2
  · intro hfinite
    exact congrArg Outcome.resp (getEmployee_reads _ hfinite)
  · rw [hdocs]
    intro hown e he hid
    obtain ⟨d, hd, rfl⟩ := List.mem_map.mp he
    obtain ⟨hdmem, hdne⟩ := List.mem_filter.mp hd
    have hne : d.id ≠ .objectID o := of_decide_eq_true hdne
    have hobj := hown d hdmem
    cases hdid : d.id with
    | string s => rw [hdid] at hobj; cases hobj
    | objectID p =>
      have hhex : p.Hex = i := by
        have : d.toEmployee.ID = p.Hex := by simp only [Doc.toEmployee, hdid, BsonId.render]
        rw [← this]; exact hid
      have hp := ObjectIDFromHex_Hex p
      rw [hhex, hparse] at hp
      have hop : o = p := (Prod.mk.inj hp).1
      exact hne (by rw [hdid, hop])

/-- Witness: Ada is deleted from the collection holding Ada and Bob. -/
theorem deleteEmployee_existing_witness :
    (deleteEmployee none "000000000000000000000001" [ada, bob]).resp =
      ⟨200, .json (.string "record deleted!")⟩ ∧
    (deleteEmployee none "000000000000000000000001" [ada, bob]).docs = [bob] ∧
    (getEmployee none none (deleteEmployee none "000000000000000000000001" [ada, bob]).docs).resp =
      ⟨200, .json (.employees (some
        ((deleteEmployee none "000000000000000000000001" [ada, bob]).docs.map
          Doc.toEmployee)))⟩ ∧
    ∀ e ∈ (deleteEmployee none "000000000000000000000001" [ada, bob]).docs.map Doc.toEmployee,
      e.ID ≠ "000000000000000000000001" :=
  ⟨(deleteEmployee_existing [ada, bob] "000000000000000000000001" oid1 (by decide) (by decide)
      ⟨ada, by decide, rfl⟩).1,
   (deleteEmployee_existing [ada, bob] "000000000000000000000001" oid1 (by decide) (by decide)
      ⟨ada, by decide, rfl⟩).2.1,
   (deleteEmployee_existing [ada, bob] "000000000000000000000001" oid1 (by decide) (by decide)
      ⟨ada, by decide, rfl⟩).2.2.2.2.1 (by decide),
   (deleteEmployee_existing [ada, bob] "000000000000000000000001" oid1 (by decide) (by decide)
      ⟨ada, by decide, rfl⟩).2.2.2.2.2 (by decide)⟩

/-- C4, as the claim states it, fails: on the collection holding a record
whose salary is +Inf, `POST /employee` with the payload `adaL` succeeds with
201 and the following `GET /employee` responds 500 with the encoder's error
instead of 200 with an array. -/
theorem create_then_list_counterexample :
    (postEmployee none none oid2 (.valid adaL) [croesus]).resp.status = 201 ∧
    (getEmployee none none (postEmployee none none oid2 (.valid adaL) [croesus]).docs).resp =
      ⟨500, .text "json: unsupported value: +Inf"⟩ := by
  decide

/-- C4, amended: for every collection and every valid payload `P`, when
`POST /employee` succeeds (status 201) the collection afterwards is the
previous one followed by one new record, stored under a newly assigned
non-empty identifier no record carried before; and when every stored salary
and age is finite, as the numbers of the JSON payload `P` are, a following
`GET /employee` responds 200 with the previous array, unchanged and in the
same order, followed by exactly one record, which has the name, salary and age
of `P` and that identifier as id.  When the ids of the collection are
ObjectIDs, as all ids this service assigns are, no record of the previous
array shows that id. -/
theorem create_then_list (docs : List Doc) (P : Employee) (generated : ObjectID)
    (insertFate findFate : Option String)
    (hcreated : (postEmployee insertFate findFate generated (.valid P) docs).resp.status = 201) :
    (postEmployee insertFate findFate generated (.valid P) docs).docs =
      docs ++ [⟨.objectID generated, P.Name, P.Salary, P.Age⟩] ∧
    (∀ d ∈ docs, d.id ≠ .objectID generated) ∧
    generated.Hex ≠ "" ∧
    (FiniteNumbers docs →
      (getEmployee none none docs).resp =
        ⟨200, .json (.employees (some (docs.map Doc.toEmployee)))⟩) ∧
    (FiniteNumbers docs → P.Finite →
      (getEmployee none none
        (postEmployee insertFate findFate generated (.valid P) docs).docs).resp =
        ⟨200, .json (.employees (some
          (docs.map Doc.toEmployee ++ [⟨generated.Hex, P.Name, P.Salary, P.Age⟩])))⟩) ∧
    (OwnIds docs → ∀ e ∈ docs.map Doc.toEmployee, e.ID ≠ generated.Hex) := by
  obtain ⟨hfresh, hdocs⟩ := postEmployee_created docs P generated insertFate findFate hcreated
  refine ⟨hdocs, hfresh, Hex_ne_empty generated, ?_, ?_, ?_⟩
  · intro hfinite
    exact congrArg Outcome.resp (getEmployee_reads docs hfinite)
  · intro hfinite hjson
    have hall : FiniteNumbers (docs ++ [⟨.objectID generated, P.Name, P.Salary, P.Age⟩]) := by
      intro d hd
      rcases List.mem_append.mp hd with h | h
      · exact hfinite d h
      · rw [List.mem_singleton.mp h]; exact hjson
    rw [hdocs, getEmployee_reads _ hall, List.map_append]
    rfl
  · intro hown e he hid
    obtain ⟨d, hd, rfl⟩ := List.mem_map.mp he
    have hobj := hown d hd
    cases hdid : d.id with
    | string s => rw [hdid] at hobj; cases hobj
    | objectID p =>
      have hhex : p.Hex = generated.Hex := by
        have : d.toEmployee.ID = p.Hex := by simp only [Doc.toEmployee, hdid, BsonId.render]
        rw [← this]; exact hid
      exact hfresh d hd (by rw [hdid, Hex_injective p generated hhex])

/-- Witness: the payload `adaL` is created, under the generated identifier
000000000000000000000002, in the collection holding Ada. -/
theorem create_then_list_witness :
    (postEmployee none none oid2 (.valid adaL) [ada]).docs =
      [ada, ⟨.objectID oid2, "Ada L.", adaL.Salary, adaL.Age⟩] ∧
    (getEmployee none none (postEmployee none none oid2 (.valid adaL) [ada]).docs).resp =
      ⟨200, .json (.employees (some
        ([ada].map Doc.toEmployee ++ [⟨oid2.Hex, adaL.Name, adaL.Salary, adaL.Age⟩])))⟩ ∧
    ∀ e ∈ [ada].map Doc.toEmployee, e.ID ≠ oid2.Hex :=
  ⟨(create_then_list [ada] adaL oid2 none none (by decide)).1,
   (create_then_list [ada] adaL oid2 none none (by decide)).2.2.2.2.1 (by decide) (by decide),
   (create_then_list [ada] adaL oid2 none none (by decide)).2.2.2.2.2 (by decide)⟩

/-- C9, as the claim states it, fails: when `DeleteOne` fails with the
description "connection reset by peer", the response of `DELETE /employee/:id`
has status 500 but its body is the status text, not that description. -/
theorem store_failure_body_counterexample :
    ¬ ((deleteEmployee (some "connection reset by peer") "000000000000000000000001"
          [ada]).resp.status = 500 ∧
       (deleteEmployee (some "connection reset by peer") "000000000000000000000001"
          [ada]).resp.body = .text "connection reset by peer") := by
  decide

/-- C9, amended: a failing `Find` or `cursor.All` in the list handler and a
failing `InsertOne` in the create handler give status 500 with the store
error's description as body; a failing `FindOneAndUpdate` (other than no
matching record) in the update handler and a failing `DeleteOne` in the delete
handler give status 500, hence no success status, and the body is the status
text "Internal Server Error" when the request parsed (otherwise the parse
error text written before stays). -/
theorem store_failure_responses (err : String) (docs : List Doc) :
    (∀ allFate, (getEmployee (some err) allFate docs).resp = ⟨500, .text err⟩) ∧
    (getEmployee none (some err) docs).resp = ⟨500, .text err⟩ ∧
    (∀ findFate generated P,
      (postEmployee (some err) findFate generated (.valid P) docs).resp = ⟨500, .text err⟩) ∧
    (∀ i body, (putEmployee (some err) i body docs).resp.status = 500) ∧
    (∀ i o P, ObjectIDFromHex i = (o, none) →
      (putEmployee (some err) i (.valid P) docs).resp = ⟨500, .text "Internal Server Error"⟩) ∧
    (∀ i, (deleteEmployee (some err) i docs).resp.status = 500) ∧
    (∀ i o, ObjectIDFromHex i = (o, none) →
      (deleteEmployee (some err) i docs).resp = ⟨500, .text "Internal Server Error"⟩) := by
  refine ⟨fun _ => rfl, rfl, fun _ _ _ => rfl, ?_, ?_, ?_, ?_⟩
  · intro i body
    simp only [putEmployee, FindOneAndUpdate, Ctx.SendStatus, Ctx.Status]
    split <;> rfl
  · intro i o P hparse
    simp only [putEmployee, hparse, BodyParser, FindOneAndUpdate]
    rfl
  · intro i
    simp only [deleteEmployee, DeleteOne, Ctx.SendStatus, Ctx.Status]
    split <;> rfl
  · intro i o hparse
    simp only [deleteEmployee, hparse, DeleteOne]
    rfl

/-- Witness: the store fails with "connection reset by peer" on the
collection holding Ada. -/
theorem store_failure_responses_witness :
    (getEmployee (some "connection reset by peer") none [ada]).resp =
      ⟨500, .text "connection reset by peer"⟩ ∧
    (postEmployee (some "connection reset by peer") none oid2 (.valid adaL) [ada]).resp =
      ⟨500, .text "connection reset by peer"⟩ ∧
    (putEmployee (some "connection reset by peer") "000000000000000000000001" (.valid adaL)
      [ada]).resp = ⟨500, .text "Internal Server Error"⟩ ∧
    (deleteEmployee (some "connection reset by peer") "000000000000000000000001" [ada]).resp =
      ⟨500, .text "Internal Server Error"⟩ :=
  ⟨(store_failure_responses "connection reset by peer" [ada]).1 none,
   (store_failure_responses "connection reset by peer" [ada]).2.2.1 none oid2 adaL,
   (store_failure_responses "connection reset by peer" [ada]).2.2.2.2.1
      "000000000000000000000001" oid1 adaL (by decide),
   (store_failure_responses "connection reset by peer" [ada]).2.2.2.2.2.2
      "000000000000000000000001" oid1 (by decide)⟩

/-- C1, the failing input: `PUT /employee/000000000000000000000001` with a
body whose parse fails, on the collection holding Ada.  The handler writes
status 400 and the error text but does not return: it goes on to
`FindOneAndUpdate` with the zero-valued struct, overwrites the name, salary
and age of Ada and responds 200. -/
theorem putEmployee_malformed_body_overwrites :
    putEmployee none "000000000000000000000001"
        (.malformed "unexpected end of JSON input" Employee.zero) [ada] =
      ⟨⟨200, .json (.employee ⟨"000000000000000000000001", "", ⟨0⟩, ⟨0⟩⟩)⟩,
       [⟨.objectID oid1, "", ⟨0⟩, ⟨0⟩⟩],
       [.findOneAndUpdate oid1 "" ⟨0⟩ ⟨0⟩]⟩ := by
  decide

/-- C2, the failing input: the path value `xyz` is no ObjectID.  Both handlers
write status 400 and go on with `NilObjectID`: the update handler issues
`FindOneAndUpdate`, the delete handler issues `DeleteOne` and, when nothing
was deleted, replaces the status by 404; a record stored under `NilObjectID`
is deleted and the response is 200. -/
theorem bad_id_reaches_store :
    (putEmployee none "xyz" (.valid adaL) [ada]).calls =
      [.findOneAndUpdate NilObjectID "Ada L." adaL.Age adaL.Salary] ∧
    (deleteEmployee none "xyz" [ada]).calls = [.deleteOne NilObjectID] ∧
    (deleteEmployee none "xyz" [ada]).resp =
      ⟨404, .text "the provided hex string is not a valid ObjectID"⟩ ∧
    deleteEmployee none "xyz" [⟨.objectID NilObjectID, "Nil", ⟨0⟩, ⟨0⟩⟩] =
      ⟨⟨200, .json (.string "record deleted!")⟩, [], [.deleteOne NilObjectID]⟩ := by
  decide

/-- C3, the failing input: the insert succeeds and the read-back `FindOne`
fails.  The error of `Decode` is dropped, so the handler responds 201 with the
zero-valued Employee, whose id is empty, although the record was stored under
the generated identifier. -/
theorem postEmployee_readback_failure :
    postEmployee none (some "connection reset by peer") oid2 (.valid adaL) [ada] =
      ⟨⟨201, .json (.employee ⟨"", "", ⟨0⟩, ⟨0⟩⟩)⟩,
       [ada, ⟨.objectID oid2, "Ada L.", adaL.Salary, adaL.Age⟩],
       [.insertOne ⟨"", "Ada L.", adaL.Salary, adaL.Age⟩, .findOne (.objectID oid2)]⟩ := by
  decide

end Hrms
